import Mathlib

/-!
Shallow embedding of the core of the ddafa cone-beam CT reconstruction engine
(HZDR-FWDF/ddafa) together with theorems checking the natural-language
specification against the code.

Sources embedded here:
* `src/src/cuda/FeldkampScheduler.h` — volume geometry, per-device chunk
  halving, sub-volume offsets, sub-projection borders;
* `src/src/cuda/ToHostImage.h` — `interpolate`, `backproject`,
  `Feldkamp::create_volumes`;
* `src/src/cuda/CUDAFilter.cu` — `createFilter`, `CUDAFilter::CUDAFilter`,
  `CUDAFilter::filterProcessor`;
* `src/unnamed` (weighting_stage.cu) — `weighting_kernel`,
  `weighting_stage::assign_task`;
* `src/src/pipeline/OutputSide.h` (volume.h / geometry part) —
  `make_volume_geometry`, `apply_roi`.

Modelling conventions: machine sizes (`std::size_t`, `std::uint32_t`) are
`Nat` (all quantities involved stay far below the wrap-around range, and
where a wrap or an out-of-bounds access matters it is modelled explicitly);
C `float` arithmetic is idealised over `ℝ` (or over exact `ℚ` where every
operation of the modelled code is rational); one kernel model over
`Option ℚ` tracks IEEE NaN propagation where that is what a claim is about.
-/

namespace Ddafa

/-! ### Scheduler: chunk halving (`FeldkampScheduler::calculate_volumes_per_device`)

The source lambda `calcVolumeSizePerDev` recursively halves `volume_size`
and doubles `*volume_count` while `volume_size >= dev_mem`.  The recursion
of the source does not terminate when `dev_mem == 0` (with `std::size_t`
arithmetic `0 >= 0` holds forever); the guard `0 < dev_mem` below makes the
Lean function total and agrees with the source whenever `dev_mem > 0`,
which is the only case the spec talks about. -/
def calcVolumeSizePerDev (volume_size volume_count dev_mem : Nat) : Nat × Nat :=
  if 0 < dev_mem ∧ dev_mem ≤ volume_size then
    calcVolumeSizePerDev (volume_size / 2) (volume_count * 2) dev_mem
  else
    (volume_size, volume_count)
termination_by volume_size
decreasing_by
  exact Nat.div_lt_self (by omega) (by omega)

theorem calcVolumeSizePerDev_step (s c m : Nat) (hm : 0 < m) (hs : m ≤ s) :
    calcVolumeSizePerDev s c m = calcVolumeSizePerDev (s / 2) (c * 2) m := by
  rw [calcVolumeSizePerDev]
  simp [hm, hs]

theorem calcVolumeSizePerDev_stop (s c m : Nat) (h : ¬(0 < m ∧ m ≤ s)) :
    calcVolumeSizePerDev s c m = (s, c) := by
  rw [calcVolumeSizePerDev]
  simp only [if_neg h]

theorem calcVolumeSizePerDev_closed (m : Nat) (hm : 0 < m) :
    ∀ s c, ∃ k, calcVolumeSizePerDev s c m = (s / 2 ^ k, c * 2 ^ k) ∧ s / 2 ^ k < m := by
  intro s
  induction s using Nat.strong_induction_on with
  | _ s ih =>
    intro c
    by_cases hs : m ≤ s
    · obtain ⟨k, hk, hlt⟩ := ih (s / 2) (Nat.div_lt_self (by omega) (by omega)) (c * 2)
      refine ⟨k + 1, ?_, ?_⟩
      · rw [calcVolumeSizePerDev_step s c m hm hs, hk]
        have h1 : s / 2 / 2 ^ k = s / 2 ^ (k + 1) := by
          rw [Nat.div_div_eq_div_mul, pow_succ, mul_comm]
        have h2 : c * 2 * 2 ^ k = c * 2 ^ (k + 1) := by ring
        rw [h1, h2]
      · have h1 : s / 2 / 2 ^ k = s / 2 ^ (k + 1) := by
          rw [Nat.div_div_eq_div_mul, pow_succ, mul_comm]
        rwa [h1] at hlt
    · refine ⟨0, ?_, ?_⟩
      · simpa using calcVolumeSizePerDev_stop s c m (by omega)
      · simpa using by omega

/-! ### Scheduler: plan quantities

`calculate_volume_bytes` sets `volume_bytes_ = dim_x * dim_y * dim_z * sizeof(T)`
(`sizeof(float) = 4`); `calculate_volumes_per_device` first divides
`volume_bytes_` by the device count and then runs the halving loop per device
with that device's `totalGlobalMem`.  `mem : Nat → Nat` maps a device index to
its global memory. -/
def volume_bytes (dim_x dim_y dim_z : Nat) : Nat :=
  dim_x * dim_y * dim_z * 4

def chunks_per_device (vol_bytes devices : Nat) (mem : Nat → Nat) (i : Nat) : Nat :=
  (calcVolumeSizePerDev (vol_bytes / devices) 1 (mem i)).2

def chunk_size_per_device (vol_bytes devices : Nat) (mem : Nat → Nat) (i : Nat) : Nat :=
  (calcVolumeSizePerDev (vol_bytes / devices) 1 (mem i)).1

/-- `volume_count_` accumulates the per-device chunk counts. -/
def volume_count (vol_bytes devices : Nat) (mem : Nat → Nat) : Nat :=
  ∑ i ∈ Finset.range devices, chunks_per_device vol_bytes devices mem i

/-- `FeldkampScheduler::calculate_subvolume_offsets`:
`offset_per_volume_[i][c] = i * vol_count_dev * vol_offset + c * vol_offset`
where `vol_offset = dim_z / volume_count_` (integer division). -/
def offset_per_volume (dim_z vol_bytes devices : Nat) (mem : Nat → Nat) (i c : Nat) : Nat :=
  i * chunks_per_device vol_bytes devices mem i * (dim_z / volume_count vol_bytes devices mem)
    + c * (dim_z / volume_count vol_bytes devices mem)

/-- `Feldkamp::create_volumes`: the z-extent of each sub-volume on a device,
`vol_dev_size = dim_z / devices` then `subvol_dev_size = vol_dev_size / vol_on_device`
(both integer divisions). -/
def subvol_dev_size (dim_z devices vol_on_device : Nat) : Nat :=
  dim_z / devices / vol_on_device

/-- C7: for each positive-memory device the halving loop terminates with a
power-of-two chunk count and a final chunk size strictly below the device's
global memory; the final size is the initial size halved once per doubling. -/
theorem chunks_per_device_pow_two_and_fits (vol_bytes devices : Nat) (mem : Nat → Nat)
    (i : Nat) (hm : 0 < mem i) :
    ∃ k, chunks_per_device vol_bytes devices mem i = 2 ^ k ∧
      chunk_size_per_device vol_bytes devices mem i = vol_bytes / devices / 2 ^ k ∧
      chunk_size_per_device vol_bytes devices mem i < mem i := by
  obtain ⟨k, hk, hlt⟩ := calcVolumeSizePerDev_closed (mem i) hm (vol_bytes / devices) 1
  exact ⟨k, by simp [chunks_per_device, hk], by simp [chunk_size_per_device, hk], by
    simpa [chunk_size_per_device, hk] using hlt⟩

/-- Witness for `chunks_per_device_pow_two_and_fits` at `vol_bytes = 20`,
one device of memory 15: the loop halves once, giving 2 chunks of 10 bytes. -/
theorem chunks_per_device_pow_two_and_fits_witness :
    0 < 15 ∧ ∃ k, chunks_per_device 20 1 (fun _ => 15) 0 = 2 ^ k ∧
      chunk_size_per_device 20 1 (fun _ => 15) 0 = 20 / 1 / 2 ^ k ∧
      chunk_size_per_device 20 1 (fun _ => 15) 0 < 15 :=
  ⟨by decide, chunks_per_device_pow_two_and_fits 20 1 (fun _ => 15) 0 (by decide)⟩

/-- Evaluation of the halving loop on the S5 scenario with
`bytes_per_volume = 16`: the device memory is `16/4 - 1 = 3` and the loop
halves three times (`16 ≥ 3`, `8 ≥ 3`, `4 ≥ 3`) and then once more is not
needed (`2 < 3`), giving 8 chunks. -/
theorem s5_scenario_eval :
    chunks_per_device 16 1 (fun _ => 16 / 4 - 1) 0 = 8 ∧ (8 : Nat) ≠ 4 := by
  constructor
  · show (calcVolumeSizePerDev (16 / 1) 1 3).2 = 8
    rw [calcVolumeSizePerDev_step _ _ _ (by omega) (by omega),
      calcVolumeSizePerDev_step _ _ _ (by omega) (by omega),
      calcVolumeSizePerDev_step _ _ _ (by omega) (by omega),
      calcVolumeSizePerDev_stop _ _ _ (by omega)]
  · decide

/-- C6 (amended): for a single device whose global memory is
`bytes_per_volume / 4 - 1`, the scheduler produces 8 chunks, not 4: since the
loop keeps halving while `chunk_size >= dev_mem`, a chunk of exactly
`bytes_per_volume / 4` is still `≥ bytes_per_volume / 4 - 1`, so the loop
halves a fourth time.  Stated for any `bytes_per_volume` that is a multiple
of `sizeof(float) = 4` of at least 12 (every real volume satisfies this). -/
theorem s5_scheduler_halving_gives_eight (B : Nat) (h4 : 4 ∣ B) (h12 : 12 ≤ B) :
    chunks_per_device B 1 (fun _ => B / 4 - 1) 0 = 8 := by
  show (calcVolumeSizePerDev (B / 1) 1 (B / 4 - 1)).2 = 8
  rw [Nat.div_one,
    calcVolumeSizePerDev_step _ _ _ (by omega) (by omega),
    calcVolumeSizePerDev_step _ _ _ (by omega) (by omega),
    calcVolumeSizePerDev_step _ _ _ (by omega) (by omega),
    calcVolumeSizePerDev_stop _ _ _ (by omega)]

/-- Witness for `s5_scheduler_halving_gives_eight` at `B = 16`. -/
theorem s5_scheduler_halving_gives_eight_witness :
    (4 ∣ 16 ∧ 12 ≤ 16) ∧ chunks_per_device 16 1 (fun _ => 16 / 4 - 1) 0 = 8 :=
  ⟨by decide, s5_scheduler_halving_gives_eight 16 (by decide) (by decide)⟩

/-- Counterexample to C1 as stated: a 1×1×5 volume (20 bytes) on one device
with 15 bytes of memory splits into 2 chunks; `create_volumes` gives each
sub-volume `dim_z_local = 5 / 1 / 2 = 2`, so the local z-extents sum to
4 ≠ 5 = dim_z, and the two bands `[0,2)`, `[2,4)` do not cover `[0,5)`. -/
theorem partition_completeness_counterexample :
    volume_bytes 1 1 5 = 20 ∧
    chunks_per_device 20 1 (fun _ => 15) 0 = 2 ∧
    (∑ c ∈ Finset.range 2, subvol_dev_size 5 1 (chunks_per_device 20 1 (fun _ => 15) 0)) = 4 ∧
    (4 : Nat) ≠ 5 := by
  have h2 : chunks_per_device 20 1 (fun _ => 15) 0 = 2 := by
    show (calcVolumeSizePerDev (20 / 1) 1 15).2 = 2
    rw [calcVolumeSizePerDev_step _ _ _ (by omega) (by omega),
      calcVolumeSizePerDev_stop _ _ _ (by omega)]
  refine ⟨by decide, h2, ?_, by decide⟩
  rw [h2]
  decide

/-- C1 (amended): for every plan in which all devices end up with the same
chunk count `k` (in particular every single-device plan and every plan over
identical devices), with `N = devices * k` total sub-volumes and band width
`q = dim_z / N`: the local z-extents sum to `N * q = dim_z - dim_z % N`
(which equals `dim_z` exactly when `N ∣ dim_z`), sub-volume `n = i * k + c`
starts at offset `n * q`, and the bands `[n*q, (n+1)*q)` are pairwise
non-overlapping and cover `[0, N*q)` completely. -/
theorem partition_completeness_amended (dim_z vol_bytes devices k : Nat) (mem : Nat → Nat)
    (hdev : 0 < devices)
    (hk : ∀ i < devices, chunks_per_device vol_bytes devices mem i = k) :
    (∑ _i ∈ Finset.range devices, k * subvol_dev_size dim_z devices k)
        = devices * k * (dim_z / (devices * k)) ∧
    devices * k * (dim_z / (devices * k)) = dim_z - dim_z % (devices * k) ∧
    (∀ i < devices, ∀ c < k,
      offset_per_volume dim_z vol_bytes devices mem i c
        = (i * k + c) * (dim_z / (devices * k))) ∧
    (∀ z < devices * k * (dim_z / (devices * k)), ∃ n < devices * k,
      n * (dim_z / (devices * k)) ≤ z ∧ z < n * (dim_z / (devices * k)) + dim_z / (devices * k)) ∧
    (∀ n₁ < devices * k, ∀ n₂ < devices * k, n₁ ≠ n₂ → ∀ z,
      ¬((n₁ * (dim_z / (devices * k)) ≤ z ∧
          z < n₁ * (dim_z / (devices * k)) + dim_z / (devices * k)) ∧
        (n₂ * (dim_z / (devices * k)) ≤ z ∧
          z < n₂ * (dim_z / (devices * k)) + dim_z / (devices * k)))) := by
  have hN : volume_count vol_bytes devices mem = devices * k := by
    unfold volume_count
    rw [Finset.sum_congr rfl (fun i hi => hk i (Finset.mem_range.mp hi))]
    simp [mul_comm]
  set q := dim_z / (devices * k) with hq
  refine ⟨?_, ?_, ?_, ?_, ?_⟩
  · rw [Finset.sum_const, Finset.card_range, smul_eq_mul, subvol_dev_size,
      Nat.div_div_eq_div_mul, ← hq]
    ring
  · have h := Nat.div_add_mod dim_z (devices * k)
    rw [← hq] at h
    have h2 : devices * k * q = q * (devices * k) := by ring
    omega
  · intro i hi c hc
    rw [offset_per_volume, hN, hk i hi, ← hq, add_mul]
  · intro z hz
    have hq0 : 0 < q := by
      rcases Nat.eq_zero_or_pos q with h | h
      · rw [h] at hz; omega
      · exact h
    refine ⟨z / q, ?_, ?_, ?_⟩
    · exact (Nat.div_lt_iff_lt_mul hq0).mpr hz
    · exact Nat.div_mul_le_self z q
    · have h1 := Nat.div_add_mod z q
      have h2 := Nat.mod_lt z hq0
      have h3 : z / q * q = q * (z / q) := by ring
      omega
  · intro n₁ _ n₂ _ hne z hcontra
    obtain ⟨⟨h₁l, h₁r⟩, ⟨h₂l, h₂r⟩⟩ := hcontra
    rcases Nat.lt_or_ge n₁ n₂ with h | h
    · have : (n₁ + 1) * q ≤ n₂ * q := Nat.mul_le_mul_right q (by omega)
      rw [add_mul, one_mul] at this
      omega
    · have hlt : n₂ < n₁ := by omega
      have : (n₂ + 1) * q ≤ n₁ * q := Nat.mul_le_mul_right q (by omega)
      rw [add_mul, one_mul] at this
      omega

/-- Witness for `partition_completeness_amended`: one device with ample
memory (4-byte volume, 100 bytes of memory) gives a single chunk. -/
theorem partition_completeness_amended_witness :
    (0 < 1 ∧ ∀ i < 1, chunks_per_device 4 1 (fun _ => 100) i = 1) ∧
    (∑ _i ∈ Finset.range 1, 1 * subvol_dev_size 5 1 1) = 1 * 1 * (5 / (1 * 1)) := by
  have hk : ∀ i < 1, chunks_per_device 4 1 (fun _ => 100) i = 1 := by
    intro i _
    show (calcVolumeSizePerDev (4 / 1) 1 100).2 = 1
    rw [calcVolumeSizePerDev_stop _ _ _ (by omega)]
  exact ⟨⟨by decide, hk⟩,
    (partition_completeness_amended 5 4 1 1 (fun _ => 100) (by decide) hk).1⟩

/-! ### Weighting stage (`weighting_kernel`, `weighting_stage::assign_task`)

The kernel reads `in[t,s]`, computes the detector coordinates
`h_s = l_px_row/2 + s*l_px_row + h_min`, `v_t = l_px_col/2 + t*l_px_col + v_min`
and writes `in[t,s] * d_sd * rsqrtf(d_sd^2 + h_s^2 + v_t^2)`; threads with
`s ≥ n_row` or `t ≥ n_col` do not write.  Float arithmetic is idealised over
`ℝ`; `rsqrtf x` is modelled as `(Real.sqrt x)⁻¹`. -/
noncomputable def weighting_kernel (input : Nat → Nat → ℝ) (n_row n_col : Nat)
    (h_min v_min d_sd l_px_row l_px_col : ℝ) (s t : Nat) : ℝ :=
  if s < n_row ∧ t < n_col then
    input s t *
      (d_sd * (Real.sqrt (d_sd ^ 2 + (l_px_row / 2 + s * l_px_row + h_min) ^ 2
        + (l_px_col / 2 + t * l_px_col + v_min) ^ 2))⁻¹)
  else
    input s t

/-- `weighting_stage::assign_task`: `h_min_ = delta_s * l_px_row - n_row * l_px_row / 2`. -/
noncomputable def ws_h_min (n_row : Nat) (delta_s l_px_row : ℝ) : ℝ :=
  delta_s * l_px_row - n_row * l_px_row / 2

/-- `weighting_stage::assign_task`: `v_min_ = delta_t * l_px_col - n_col * l_px_col / 2`. -/
noncomputable def ws_v_min (n_col : Nat) (delta_t l_px_col : ℝ) : ℝ :=
  delta_t * l_px_col - n_col * l_px_col / 2

/-- `weighting_stage::assign_task`: `d_sd_ = |d_so| + |d_od|`. -/
noncomputable def ws_d_sd (d_so d_od : ℝ) : ℝ := |d_so| + |d_od|

/-- C2: for every projection and every pixel `(s,t)` with `s < n_row`,
`t < n_col`, the weighting stage replaces `in[t,s]` by `in[t,s] * w` with
`w = d_sd / sqrt(d_sd² + h_s² + v_t²)`, `h_s = l_px_row/2 + s*l_px_row + h_min`,
`v_t = l_px_col/2 + t*l_px_col + v_min`, `h_min = Δs*l_px_row - n_row*l_px_row/2`,
`v_min = Δt*l_px_col - n_col*l_px_col/2`, `d_sd = |d_so| + |d_od|`; pixels
outside that range are unchanged. -/
theorem weighting_replaces_pixels (input : Nat → Nat → ℝ) (n_row n_col : Nat)
    (delta_s delta_t l_px_row l_px_col d_so d_od : ℝ) (s t : Nat) :
    weighting_kernel input n_row n_col
        (ws_h_min n_row delta_s l_px_row) (ws_v_min n_col delta_t l_px_col)
        (ws_d_sd d_so d_od) l_px_row l_px_col s t =
      if s < n_row ∧ t < n_col then
        input s t *
          ((|d_so| + |d_od|) /
            Real.sqrt ((|d_so| + |d_od|) ^ 2
              + (l_px_row / 2 + s * l_px_row + (delta_s * l_px_row - n_row * l_px_row / 2)) ^ 2
              + (l_px_col / 2 + t * l_px_col + (delta_t * l_px_col - n_col * l_px_col / 2)) ^ 2))
      else
        input s t := by
  unfold weighting_kernel ws_h_min ws_v_min ws_d_sd
  split
  · simp only [div_eq_mul_inv]
  · rfl

/-! ### Ramp filter (`CUDAFilter::CUDAFilter`, `createFilter`, `CUDAFilter::filterProcessor`) -/

/-- `CUDAFilter::CUDAFilter`: `filter_length_ = 2 * pow(2, ceil(log2(n_col)))`. -/
def filter_length (n_col : Nat) : Nat := 2 * 2 ^ Nat.clog 2 n_col

theorem filter_length_four : filter_length 4 = 8 := by
  have h : Nat.clog 2 4 = 2 := by
    have hp := Nat.clog_pow 2 2 (by norm_num)
    norm_num at hp
    exact hp
  rw [filter_length, h]
  norm_num

/-- `createFilter` kernel: the spatial-domain filter value at index `x` is a
function of the j-table entry `j[x]` alone (`tau = l_px_row`).  The C test
`j[x] % 2 == 0` detects evenness identically for truncated C division and
Lean's `Int.emod`. -/
noncomputable def createFilter_r (tau : ℝ) (j : ℤ) : ℝ :=
  if j = 0 then (1 / 8) * (1 / tau ^ 2)
  else if j % 2 = 0 then 0
  else -1 / (2 * (j : ℝ) ^ 2 * Real.pi ^ 2 * tau ^ 2)

/-- `CUDAFilter::filterProcessor`: the j-table filling loop
`for(k = 0; k <= filter_length_; ++k, ++j) j_host_buffer[k] = j` starting from
`j = -((filter_length_ - 2) / 2)`, modelled as its list of (index, value)
writes.  Note the loop bound is `k <= filter_length_`, i.e. `L + 1` writes. -/
def j_host_writes (L : Nat) : List (Nat × Int) :=
  (List.range (L + 1)).map (fun k => (k, -(((L : Int) - 2) / 2) + k))

/-- C3: over the index range `j ∈ [-(L-2)/2, …, L/2]` with
`L = 2 * 2 ^ ⌈log₂ n_col⌉` and `τ = l_px_row`, the constructed filter
satisfies `r 0 = 1/(8 τ²)`, `r j = 0` for even `j ≠ 0`,
`r j = -1/(2 j² π² τ²)` for odd `j`, and `r j = r (-j)`. -/
theorem filter_kernel_values (n_col : Nat) (tau : ℝ) (j : ℤ)
    (hrange : -(((filter_length n_col : ℤ) - 2) / 2) ≤ j ∧
      j ≤ (filter_length n_col : ℤ) / 2) :
    (j = 0 → createFilter_r tau j = 1 / (8 * tau ^ 2)) ∧
    (j ≠ 0 → j % 2 = 0 → createFilter_r tau j = 0) ∧
    (j % 2 ≠ 0 → createFilter_r tau j = -1 / (2 * (j : ℝ) ^ 2 * Real.pi ^ 2 * tau ^ 2)) ∧
    createFilter_r tau j = createFilter_r tau (-j) := by
  clear hrange
  refine ⟨?_, ?_, ?_, ?_⟩
  · intro h
    rw [createFilter_r, if_pos h]
    ring
  · intro h0 he
    rw [createFilter_r, if_neg h0, if_pos he]
  · intro ho
    have h0 : j ≠ 0 := by
      intro h
      exact ho (by rw [h]; decide)
    rw [createFilter_r, if_neg h0, if_neg ho]
  · by_cases h0 : j = 0
    · rw [h0, neg_zero]
    · have h0' : -j ≠ 0 := by omega
      by_cases he : j % 2 = 0
      · have he' : -j % 2 = 0 := by omega
        rw [createFilter_r, if_neg h0, if_pos he,
          createFilter_r, if_neg h0', if_pos he']
      · have he' : ¬(-j % 2 = 0) := by omega
        rw [createFilter_r, if_neg h0, if_neg he,
          createFilter_r, if_neg h0', if_neg he']
        rw [Int.cast_neg, neg_sq]

/-- Witness for `filter_kernel_values` at `n_col = 4` (`L = 8`), `τ = 1`,
`j = 1`: the range is `-3 ≤ 1 ≤ 4` and the odd case applies. -/
theorem filter_kernel_values_witness :
    (-(((filter_length 4 : ℤ) - 2) / 2) ≤ 1 ∧ (1 : ℤ) ≤ (filter_length 4 : ℤ) / 2) ∧
    ((1 : ℤ) % 2 ≠ 0 →
      createFilter_r 1 1 = -1 / (2 * ((1 : ℤ) : ℝ) ^ 2 * Real.pi ^ 2 * (1 : ℝ) ^ 2)) :=
  ⟨by rw [filter_length_four]; decide,
    (filter_kernel_values 4 1 1 (by rw [filter_length_four]; decide)).2.2.1⟩

/-- C10: the j-table filling loop of `CUDAFilter::filterProcessor` evaluated
at `n_col = 4` (`filter_length_ = 8`): the loop performs a write at index
`8 ≥ filter_length_` — one element past the end of the length-8 host buffer —
while every in-range entry `k < 8` does hold `j = -(L-2)/2 + k = -3 + k`. -/
theorem j_table_fill_overflows :
    filter_length 4 = 8 ∧
    (∃ p ∈ j_host_writes 8, 8 ≤ p.1) ∧
    (∀ p ∈ j_host_writes 8, p.1 < 8 → p.2 = -3 + (p.1 : ℤ)) :=
  ⟨filter_length_four, by decide, by decide⟩

/-! ### Volume geometry and region of interest (`OutputSide.h` geometry part) -/

structure volume_geometry where
  dim_x : Nat
  dim_y : Nat
  dim_z : Nat
  l_vx_x : ℝ
  l_vx_y : ℝ
  l_vx_z : ℝ

/-- `apply_roi`: checks `low < high` per axis, computes the updated
dimensions `high - low` (incremented when `low == 0`), checks they do not
exceed the old ones, and only then overwrites the dimensions; the voxel
sizes are never touched and in every failure case the input geometry is
returned unchanged. -/
def apply_roi (vol_geo : volume_geometry) (x1 x2 y1 y2 z1 z2 : Nat) : volume_geometry :=
  if x1 < x2 ∧ y1 < y2 ∧ z1 < z2 then
    if x2 - x1 + (if x1 = 0 then 1 else 0) ≤ vol_geo.dim_x ∧
       y2 - y1 + (if y1 = 0 then 1 else 0) ≤ vol_geo.dim_y ∧
       z2 - z1 + (if z1 = 0 then 1 else 0) ≤ vol_geo.dim_z then
      { vol_geo with
          dim_x := x2 - x1 + (if x1 = 0 then 1 else 0),
          dim_y := y2 - y1 + (if y1 = 0 then 1 else 0),
          dim_z := z2 - z1 + (if z1 = 0 then 1 else 0) }
    else
      vol_geo
  else
    vol_geo

/-- C9: `apply_roi` never fails — it always returns a geometry whose
dimensions are at most the original ones with all voxel sizes unchanged,
and whenever some axis has `low ≥ high` or the updated dimensions would
exceed the original ones it returns the input geometry unchanged. -/
theorem apply_roi_total_and_shrinking (vg : volume_geometry) (x1 x2 y1 y2 z1 z2 : Nat) :
    ((apply_roi vg x1 x2 y1 y2 z1 z2).l_vx_x = vg.l_vx_x ∧
     (apply_roi vg x1 x2 y1 y2 z1 z2).l_vx_y = vg.l_vx_y ∧
     (apply_roi vg x1 x2 y1 y2 z1 z2).l_vx_z = vg.l_vx_z ∧
     (apply_roi vg x1 x2 y1 y2 z1 z2).dim_x ≤ vg.dim_x ∧
     (apply_roi vg x1 x2 y1 y2 z1 z2).dim_y ≤ vg.dim_y ∧
     (apply_roi vg x1 x2 y1 y2 z1 z2).dim_z ≤ vg.dim_z) ∧
    ((¬(x1 < x2 ∧ y1 < y2 ∧ z1 < z2) ∨
      ¬(x2 - x1 + (if x1 = 0 then 1 else 0) ≤ vg.dim_x ∧
        y2 - y1 + (if y1 = 0 then 1 else 0) ≤ vg.dim_y ∧
        z2 - z1 + (if z1 = 0 then 1 else 0) ≤ vg.dim_z)) →
      apply_roi vg x1 x2 y1 y2 z1 z2 = vg) := by
  by_cases hc : x1 < x2 ∧ y1 < y2 ∧ z1 < z2
  · by_cases hd : x2 - x1 + (if x1 = 0 then 1 else 0) ≤ vg.dim_x ∧
        y2 - y1 + (if y1 = 0 then 1 else 0) ≤ vg.dim_y ∧
        z2 - z1 + (if z1 = 0 then 1 else 0) ≤ vg.dim_z
    · simp only [apply_roi, if_pos hc, if_pos hd]
      refine ⟨⟨trivial, trivial, trivial, hd.1, hd.2.1, hd.2.2⟩, ?_⟩
      intro h
      rcases h with h | h
      · exact absurd hc h
      · exact absurd hd h
    · simp only [apply_roi, if_pos hc, if_neg hd]
      exact ⟨⟨trivial, trivial, trivial, le_refl _, le_refl _, le_refl _⟩, fun _ => trivial⟩
  · simp only [apply_roi, if_neg hc]
    exact ⟨⟨trivial, trivial, trivial, le_refl _, le_refl _, le_refl _⟩, fun _ => trivial⟩

/-- Witness for `apply_roi_total_and_shrinking`: a ROI with `x1 ≥ x2` leaves
a concrete 10×10×10 geometry untouched. -/
theorem apply_roi_total_and_shrinking_witness :
    apply_roi ⟨10, 10, 10, 1, 1, 1⟩ 3 2 0 1 0 1 = ⟨10, 10, 10, 1, 1, 1⟩ :=
  (apply_roi_total_and_shrinking ⟨10, 10, 10, 1, 1, 1⟩ 3 2 0 1 0 1).2
    (Or.inl (by decide))

/-! ### Sub-projection borders (`FeldkampScheduler::calculate_subprojection_borders`)

Each source local is a definition: `sp_top H N n` is the band boundary
`-(H/2) + (n/N)*H` (the source computes `top` with `n` and `bottom` with
`n+1`), `sp_virt_top`/`sp_virt_bottom` are the perspective projections onto
the virtual detector, `sp_top_real`/`sp_bottom_real` the physical detector
band, `sp_clamp_top`/`sp_clamp_bottom` the source's if-chains, and the row
indices are floor/ceil of the pixel coordinate minus one half. -/
noncomputable def sp_top (H : ℝ) (N : Nat) (n : Nat) : ℝ :=
  -(H / 2) + ((n : ℝ) / (N : ℝ)) * H

noncomputable def sp_virt_top (top D d_src r_max : ℝ) : ℝ :=
  top * D / (|d_src| + (if top < 0 then -r_max else r_max))

noncomputable def sp_virt_bottom (bottom D d_src r_max : ℝ) : ℝ :=
  bottom * D / (|d_src| + (if bottom < 0 then r_max else -r_max))

noncomputable def sp_top_real (N_v : Nat) (d_v delta_v : ℝ) : ℝ :=
  0 - ((N_v : ℝ) * d_v) / 2 - delta_v + d_v / 2

noncomputable def sp_bottom_real (N_v : Nat) (d_v delta_v : ℝ) : ℝ :=
  sp_top_real N_v d_v delta_v + (N_v : ℝ) * d_v - d_v

noncomputable def sp_clamp_top (x tpr bpr : ℝ) : ℝ :=
  if x > bpr then bpr else if x < tpr then tpr else x

noncomputable def sp_clamp_bottom (x tpr bpr : ℝ) : ℝ :=
  if x < tpr then tpr else if x > bpr then bpr else x

noncomputable def sp_row_floor (x : ℝ) (N_v : Nat) (d_v delta_v : ℝ) : ℤ :=
  ⌊(x + ((N_v : ℝ) * d_v) / 2 + delta_v) / d_v - 1 / 2⌋

noncomputable def sp_row_ceil (x : ℝ) (N_v : Nat) (d_v delta_v : ℝ) : ℤ :=
  ⌈(x + ((N_v : ℝ) * d_v) / 2 + delta_v) / d_v - 1 / 2⌉

/-- The `(start_row, bottom_row)` pair pushed into `subproj_dims_` for
sub-volume `n` (after the final clamps `start_row < 0 → 0` and
`bottom_row ≥ N_v → N_v - 1`). -/
noncomputable def subproj_borders (H : ℝ) (N : Nat) (D d_src r_max : ℝ)
    (N_v : Nat) (d_v delta_v : ℝ) (n : Nat) : ℤ × ℤ :=
  let tpr := sp_top_real N_v d_v delta_v
  let bpr := sp_bottom_real N_v d_v delta_v
  let top_proj := sp_clamp_top (sp_virt_top (sp_top H N n) D d_src r_max) tpr bpr
  let bottom_proj := sp_clamp_bottom (sp_virt_bottom (sp_top H N (n + 1)) D d_src r_max) tpr bpr
  let start_row := sp_row_floor top_proj N_v d_v delta_v
  let bottom_row := sp_row_ceil bottom_proj N_v d_v delta_v
  (if start_row < 0 then 0 else start_row,
    if (N_v : ℤ) ≤ bottom_row then (N_v : ℤ) - 1 else bottom_row)

theorem sp_virt_mono (top bottom D d_src r_max : ℝ) (htb : top ≤ bottom) (hD : 0 ≤ D)
    (hr0 : 0 ≤ r_max) (hrS : r_max < |d_src|) :
    sp_virt_top top D d_src r_max ≤ sp_virt_bottom bottom D d_src r_max := by
  set S := |d_src| with hS
  have hSpos : 0 < S := lt_of_le_of_lt hr0 hrS
  unfold sp_virt_top sp_virt_bottom
  by_cases ht : top < 0
  · by_cases hb : bottom < 0
    · rw [if_pos ht, if_pos hb, div_le_div_iff (by linarith) (by linarith)]
      nlinarith [mul_nonneg (mul_nonneg (sub_nonneg.mpr htb) hD) hSpos.le,
        mul_nonneg (mul_nonneg (by linarith : (0:ℝ) ≤ -(bottom + top)) hD) hr0]
    · rw [if_pos ht, if_neg hb]
      have h1 : top * D / (S + -r_max) ≤ 0 := by
        apply div_nonpos_of_nonpos_of_nonneg
        · nlinarith
        · linarith
      have h2 : 0 ≤ bottom * D / (S + -r_max) := by
        apply div_nonneg
        · exact mul_nonneg (by linarith) hD
        · linarith
      linarith
  · have hb : ¬bottom < 0 := fun h => ht (lt_of_le_of_lt htb h)
    rw [if_neg ht, if_neg hb, div_le_div_iff (by linarith) (by linarith)]
    nlinarith [mul_nonneg (mul_nonneg (sub_nonneg.mpr htb) hD) hSpos.le,
      mul_nonneg (mul_nonneg (by linarith : (0:ℝ) ≤ bottom + top) hD) hr0]

theorem sp_clamp_top_eq (x tpr bpr : ℝ) (h : tpr ≤ bpr) :
    sp_clamp_top x tpr bpr = max tpr (min bpr x) := by
  unfold sp_clamp_top
  split_ifs with h1 h2
  · rw [min_eq_left h1.le, max_eq_right h]
  · rw [min_eq_right (not_lt.mp h1), max_eq_left h2.le]
  · rw [min_eq_right (not_lt.mp h1), max_eq_right (not_lt.mp h2)]

theorem sp_clamp_bottom_eq (x tpr bpr : ℝ) (h : tpr ≤ bpr) :
    sp_clamp_bottom x tpr bpr = max tpr (min bpr x) := by
  unfold sp_clamp_bottom
  split_ifs with h1 h2
  · rw [min_eq_right (by linarith), max_eq_left (by linarith)]
  · rw [min_eq_left h2.le, max_eq_right h]
  · rw [min_eq_right (not_lt.mp h2), max_eq_right (not_lt.mp h1)]

/-- C5: for every plan and every sub-volume `n`, the computed sub-projection
row bounds satisfy `0 ≤ row_top(n) ≤ row_bottom(n) ≤ n_col - 1`.  The
hypotheses hold for every plan the scheduler builds: `H = dim_z * l_vx_z ≥ 0`,
`N = volume_count ≥ 1`, `n_col ≥ 1`, pixel pitch `d_v > 0`,
`D = d_sd = |d_so| + |d_od| ≥ 0`, and the in-plane radius
`r_max = dim_x * l_vx_x / 2` satisfies `0 ≤ r_max < |d_so|` because
`r_max ≤ r = |d_so| * sin(atan(...)) < |d_so|`. -/
theorem subproj_borders_monotone (H : ℝ) (N : Nat) (D d_src r_max : ℝ)
    (N_v : Nat) (d_v delta_v : ℝ) (n : Nat)
    (hH : 0 ≤ H) (hN : 0 < N) (hNv : 1 ≤ N_v) (hdv : 0 < d_v) (hD : 0 ≤ D)
    (hr0 : 0 ≤ r_max) (hrS : r_max < |d_src|) :
    0 ≤ (subproj_borders H N D d_src r_max N_v d_v delta_v n).1 ∧
    (subproj_borders H N D d_src r_max N_v d_v delta_v n).1 ≤
      (subproj_borders H N D d_src r_max N_v d_v delta_v n).2 ∧
    (subproj_borders H N D d_src r_max N_v d_v delta_v n).2 ≤ (N_v : ℤ) - 1 := by
  have hNv' : (1 : ℝ) ≤ (N_v : ℝ) := by exact_mod_cast hNv
  set tpr := sp_top_real N_v d_v delta_v with htpr
  set bpr := sp_bottom_real N_v d_v delta_v with hbpr
  have h_tb : tpr ≤ bpr := by
    rw [htpr, hbpr, sp_bottom_real]
    nlinarith
  -- band boundaries are ordered
  have h_top_le : sp_top H N n ≤ sp_top H N (n + 1) := by
    have hNr : (0 : ℝ) < (N : ℝ) := by exact_mod_cast hN
    have key : (n : ℝ) / (N : ℝ) ≤ ((n : ℝ) + 1) / (N : ℝ) := by
      rw [div_le_div_right hNr]
      linarith
    unfold sp_top
    push_cast
    nlinarith [mul_le_mul_of_nonneg_right key hH]
  have h_virt : sp_virt_top (sp_top H N n) D d_src r_max ≤
      sp_virt_bottom (sp_top H N (n + 1)) D d_src r_max :=
    sp_virt_mono _ _ _ _ _ h_top_le hD hr0 hrS
  set tp := sp_clamp_top (sp_virt_top (sp_top H N n) D d_src r_max) tpr bpr with htp
  set bp := sp_clamp_bottom (sp_virt_bottom (sp_top H N (n + 1)) D d_src r_max) tpr bpr with hbp
  have h_tp_bp : tp ≤ bp := by
    rw [htp, hbp, sp_clamp_top_eq _ _ _ h_tb, sp_clamp_bottom_eq _ _ _ h_tb]
    exact max_le_max (le_refl _) (min_le_min (le_refl _) h_virt)
  have h_tp_le_bpr : tp ≤ bpr := by
    rw [htp, sp_clamp_top_eq _ _ _ h_tb]
    exact max_le h_tb (min_le_left _ _)
  have h_bp_ge_tpr : tpr ≤ bp := by
    rw [hbp, sp_clamp_bottom_eq _ _ _ h_tb]
    exact le_max_left _ _
  -- the real-valued row coordinates before floor/ceil
  set K := ((N_v : ℝ) * d_v) / 2 + delta_v with hK
  have h_ab : (tp + K) / d_v - 1 / 2 ≤ (bp + K) / d_v - 1 / 2 := by
    have : (tp + K) / d_v ≤ (bp + K) / d_v := by
      rw [div_le_div_right hdv]
      linarith
    linarith
  have h_a_le : (tp + K) / d_v - 1 / 2 ≤ (N_v : ℝ) - 1 := by
    have hbv : (bpr + K) / d_v - 1 / 2 = (N_v : ℝ) - 1 := by
      rw [hbpr, sp_bottom_real, sp_top_real, hK]
      field_simp
      ring
    have : (tp + K) / d_v ≤ (bpr + K) / d_v := by
      rw [div_le_div_right hdv]
      linarith
    linarith
  have h_b_ge : (0 : ℝ) ≤ (bp + K) / d_v - 1 / 2 := by
    have htv : (tpr + K) / d_v - 1 / 2 = 0 := by
      rw [htpr, sp_top_real, hK]
      field_simp
      ring
    have : (tpr + K) / d_v ≤ (bp + K) / d_v := by
      rw [div_le_div_right hdv]
      linarith
    linarith
  -- the integer rows
  have hrow_goal :
      subproj_borders H N D d_src r_max N_v d_v delta_v n =
        (if sp_row_floor tp N_v d_v delta_v < 0 then 0 else sp_row_floor tp N_v d_v delta_v,
          if (N_v : ℤ) ≤ sp_row_ceil bp N_v d_v delta_v then (N_v : ℤ) - 1
          else sp_row_ceil bp N_v d_v delta_v) := by
    rw [subproj_borders]
  rw [hrow_goal]
  have hfl : sp_row_floor tp N_v d_v delta_v = ⌊(tp + K) / d_v - 1 / 2⌋ := by
    rw [sp_row_floor, hK]
    ring_nf
  have hce : sp_row_ceil bp N_v d_v delta_v = ⌈(bp + K) / d_v - 1 / 2⌉ := by
    rw [sp_row_ceil, hK]
    ring_nf
  have h_floor_le : ⌊(tp + K) / d_v - 1 / 2⌋ ≤ (N_v : ℤ) - 1 := by
    have : ((N_v : ℝ) - 1) = (((N_v : ℤ) - 1 : ℤ) : ℝ) := by push_cast; ring
    have h2 := Int.floor_le_floor h_a_le
    rwa [this, Int.floor_intCast] at h2
  have h_floor_le_ceil : ⌊(tp + K) / d_v - 1 / 2⌋ ≤ ⌈(bp + K) / d_v - 1 / 2⌉ :=
    le_trans (Int.floor_le_floor h_ab) (Int.floor_le_ceil _)
  have h_ceil_nonneg : (0 : ℤ) ≤ ⌈(bp + K) / d_v - 1 / 2⌉ := Int.ceil_nonneg h_b_ge
  rw [hfl, hce]
  have hNvz : (1 : ℤ) ≤ (N_v : ℤ) := by exact_mod_cast hNv
  refine ⟨?_, ?_, ?_⟩
  · split_ifs <;> omega
  · split_ifs <;> omega
  · split_ifs <;> omega

/-- Witness for `subproj_borders_monotone`: a plan with `H = 2`, a single
sub-volume, `d_sd = 200`, `d_so = 100`, `r_max = 50`, a 4-row detector with
unit pitch and no offset. -/
theorem subproj_borders_monotone_witness :
    ((50 : ℝ) < |(100 : ℝ)|) ∧
    0 ≤ (subproj_borders 2 1 200 100 50 4 1 0 0).1 ∧
    (subproj_borders 2 1 200 100 50 4 1 0 0).1 ≤
      (subproj_borders 2 1 200 100 50 4 1 0 0).2 ∧
    (subproj_borders 2 1 200 100 50 4 1 0 0).2 ≤ ((4 : Nat) : ℤ) - 1 :=
  ⟨by norm_num,
    subproj_borders_monotone 2 1 200 100 50 4 1 0 0 (by norm_num) (by norm_num)
      (by norm_num) (by norm_num) (by norm_num) (by norm_num) (by norm_num)⟩

/-! ### Volume geometry construction (`make_volume_geometry` /
`FeldkampScheduler::calculate_volume_geo`, identical formulas)

The principal-point offsets `delta_s`/`delta_t` are given in pixels and
multiplied by the pixel pitch; `static_cast<uint32_t>` of the non-negative
float dimensions is `Nat.floor`. -/
noncomputable def make_volume_geometry (n_row : Nat) (l_px_row delta_s : ℝ)
    (n_col : Nat) (l_px_col delta_t : ℝ) (d_so d_od : ℝ) : volume_geometry :=
  let delta_s' := |delta_s * l_px_row|
  let delta_t' := |delta_t * l_px_col|
  let d_so' := |d_so|
  let d_sd := |d_od| + d_so'
  let alpha := Real.arctan ((((n_row : ℝ) * l_px_row) / 2 + delta_s') / d_sd)
  let r := d_so' * Real.sin alpha
  let l_vx_x := r / ((((n_row : ℝ) * l_px_row) / 2 + delta_s') / l_px_row)
  { dim_x := ⌊(2 * r) / l_vx_x⌋₊,
    dim_y := ⌊(2 * r) / l_vx_x⌋₊,
    dim_z := ⌊((n_col : ℝ) * l_px_col / 2 + delta_t') * (d_so' / d_sd) * (2 / l_vx_x)⌋₊,
    l_vx_x := l_vx_x,
    l_vx_y := l_vx_x,
    l_vx_z := l_vx_x }

/-- The S1 geometry of the spec: `n_row = n_col = 32`, unit pixel pitch,
no offsets, `d_so = d_od = 100`, so `d_sd = 200` and
`r = 100 * sin(atan(16/200)) = 8 / sqrt(1 + (2/25)^2)`.  All three
dimensions evaluate to 32. -/
theorem s1_dims :
    (make_volume_geometry 32 1 0 32 1 0 100 100).dim_x = 32 ∧
    (make_volume_geometry 32 1 0 32 1 0 100 100).dim_y = 32 ∧
    (make_volume_geometry 32 1 0 32 1 0 100 100).dim_z = 32 := by
  set s := Real.sqrt (1 + (2 / 25 : ℝ) ^ 2) with hs
  have hs2 : s ^ 2 = 1 + (2 / 25 : ℝ) ^ 2 := Real.sq_sqrt (by norm_num)
  have hs0 : 0 ≤ s := Real.sqrt_nonneg _
  have hs1 : 1 ≤ s := by nlinarith [sq_nonneg (s - 1)]
  have hsu : s < 33 / 32 := by nlinarith [sq_nonneg (s - 33 / 32)]
  have hspos : 0 < s := by linarith
  have hr : (100 : ℝ) * Real.sin (Real.arctan (2 / 25)) = 8 / s := by
    rw [Real.sin_arctan, hs]
    ring
  have hrpos : (0 : ℝ) < 100 * Real.sin (Real.arctan (2 / 25)) := by
    rw [hr]
    positivity
  have hx : (make_volume_geometry 32 1 0 32 1 0 100 100).dim_x = 32 := by
    unfold make_volume_geometry
    norm_num
    have heq : 2 * (100 * Real.sin (Real.arctan (2 / 25))) /
        (100 * Real.sin (Real.arctan (2 / 25)) / 16) = 32 := by
      field_simp
      ring
    rw [heq]
    norm_num
  have hy : (make_volume_geometry 32 1 0 32 1 0 100 100).dim_y = 32 := hx
  have hz : (make_volume_geometry 32 1 0 32 1 0 100 100).dim_z = 32 := by
    unfold make_volume_geometry
    norm_num
    have heq : 8 * (2 / (100 * Real.sin (Real.arctan (2 / 25)) / 16)) = 32 * s := by
      rw [hr]
      field_simp
      ring
    rw [heq, Nat.floor_eq_iff (by positivity)]
    constructor
    · push_cast
      linarith
    · push_cast
      linarith
  exact ⟨hx, hy, hz⟩

/-! ### Back-projection kernel (`ToHostImage.h`: `vol_centered_coordinate`,
`proj_real_coordinate`, `interpolate`, `backproject`)

The projection buffer is a function `ℤ → ℤ → ℝ` of (row, column); pitched
pointer arithmetic reduces to row indexing, and the guarded reads only ever
use in-bounds indices, where the `unsigned` cast is the identity. -/
noncomputable def vol_centered_coordinate (coord : Nat) (dim : Nat) (size : ℝ) : ℝ :=
  -((dim : ℝ) * (size / 2)) + size / 2 + (coord : ℝ) * size

noncomputable def proj_real_coordinate (coord : ℝ) (dim : Nat) (size offset : ℝ) : ℝ :=
  (coord - size / 2 - (-((dim : ℝ) * (size / 2)) - offset)) / size

open scoped Classical in
noncomputable def interpolate (h v : ℝ) (proj : ℤ → ℤ → ℝ) (proj_width proj_height : Nat)
    (pixel_size_x pixel_size_y offset_x offset_y : ℝ) : ℝ :=
  let h_real := proj_real_coordinate h proj_width pixel_size_x offset_x
  let v_real := proj_real_coordinate v proj_height pixel_size_y offset_y
  let h_j0 : ℝ := (⌊h_real⌋ : ℝ)
  let h_j1 : ℝ := (⌈h_real⌉ : ℝ)
  let v_i0 : ℝ := (⌊v_real⌋ : ℝ)
  let v_i1 : ℝ := (⌈v_real⌉ : ℝ)
  let w_h0 := (h_real - h_j0) / (h_j1 - h_j0)
  let w_v0 := (v_real - v_i0) / (v_i1 - v_i0)
  let w_h1 := 1 - w_h0
  let w_v1 := 1 - w_v0
  let h_j0_valid := 0 ≤ h_j0 ∧ h_j0 < (proj_width : ℝ)
  let h_j1_valid := 0 ≤ h_j1 ∧ h_j1 < (proj_width : ℝ)
  let v_i0_valid := 0 ≤ v_i0 ∧ v_i0 < (proj_height : ℝ)
  let v_i1_valid := 0 ≤ v_i1 ∧ v_i1 < (proj_height : ℝ)
  let tl := if h_j0_valid ∧ v_i0_valid then proj ⌊v_real⌋ ⌊h_real⌋ else 0
  let bl := if h_j0_valid ∧ v_i1_valid then proj ⌈v_real⌉ ⌊h_real⌋ else 0
  let tr := if h_j1_valid ∧ v_i0_valid then proj ⌊v_real⌋ ⌈h_real⌉ else 0
  let br := if h_j1_valid ∧ v_i1_valid then proj ⌈v_real⌉ ⌈h_real⌉ else 0
  w_h1 * w_v1 * tl + w_h1 * w_v0 * bl + w_h0 * w_v1 * tr + w_h0 * w_v0 * br

/-- One voxel update of the `backproject` kernel: threads outside the
sub-volume bounds leave the voxel unchanged, the rest add
`0.5 * det * u^2` to the current voxel value. -/
noncomputable def backproject (volVal : ℝ) (k l m : Nat) (vol_w vol_h vol_d : Nat)
    (voxel_size_x voxel_size_y voxel_size_z : ℝ)
    (proj : ℤ → ℤ → ℝ) (proj_w proj_h : Nat)
    (pixel_size_x pixel_size_y pixel_offset_x pixel_offset_y : ℝ)
    (angle_sin angle_cos dist_src dist_sd : ℝ) : ℝ :=
  if k < vol_w ∧ l < vol_h ∧ m < vol_d then
    let x_k := vol_centered_coordinate k vol_w voxel_size_x
    let y_l := vol_centered_coordinate l vol_h voxel_size_y
    let z_m := vol_centered_coordinate m vol_d voxel_size_z
    let s := x_k * angle_cos + y_l * angle_sin
    let t := -x_k * angle_sin + y_l * angle_cos
    let factor := dist_sd / (s - dist_src)
    let h := t * factor
    let v := z_m * factor
    let det := interpolate h v proj proj_w proj_h
      pixel_size_x pixel_size_y pixel_offset_x pixel_offset_y
    let u := dist_src / (s - dist_src)
    volVal + (1 / 2) * det * u ^ 2
  else
    volVal

theorem interpolate_zero_proj (h v : ℝ) (proj_width proj_height : Nat)
    (pixel_size_x pixel_size_y offset_x offset_y : ℝ) :
    interpolate h v (fun _ _ => 0) proj_width proj_height
      pixel_size_x pixel_size_y offset_x offset_y = 0 := by
  unfold interpolate
  simp

/-- Counterexample to C8 as stated: for the S1 geometry the computed volume
dimension along x is 32, not approximately 16 (the spec's own formulae give
`dim_x = ⌊2r / (r/16)⌋ = 32`). -/
theorem s1_dims_not_sixteen :
    (make_volume_geometry 32 1 0 32 1 0 100 100).dim_x = 32 ∧
    (make_volume_geometry 32 1 0 32 1 0 100 100).dim_x ≠ 16 := by
  refine ⟨s1_dims.1, ?_⟩
  rw [s1_dims.1]
  decide

/-- C8 (amended): for the S1 detector geometry (`n_row = n_col = 32`,
`l_px = 1 mm`, no offsets, `d_so = d_od = 100`) the computed volume geometry
is 32×32×32 (not ≈16³), and back-projecting an all-zero projection — in
particular the single projection at `φ = 0`, where `(sin φ, cos φ) = (0, 1)` —
leaves every voxel of the zero-initialised volume exactly 0. -/
theorem s1_smallest_plan_amended :
    ((make_volume_geometry 32 1 0 32 1 0 100 100).dim_x = 32 ∧
     (make_volume_geometry 32 1 0 32 1 0 100 100).dim_y = 32 ∧
     (make_volume_geometry 32 1 0 32 1 0 100 100).dim_z = 32) ∧
    ∀ (k l m : Nat) (angle_sin angle_cos : ℝ),
      backproject 0 k l m 32 32 32
        (make_volume_geometry 32 1 0 32 1 0 100 100).l_vx_x
        (make_volume_geometry 32 1 0 32 1 0 100 100).l_vx_y
        (make_volume_geometry 32 1 0 32 1 0 100 100).l_vx_z
        (fun _ _ => 0) 32 32 1 1 0 0 angle_sin angle_cos 100 200 = 0 := by
  refine ⟨s1_dims, ?_⟩
  intro k l m angle_sin angle_cos
  unfold backproject
  split
  · simp only [interpolate_zero_proj]
    ring
  · rfl

/-! ### NaN-tracking model of `interpolate` over exact rationals

`Option ℚ` represents a `float` that is either an exact rational value
(`some q`) or NaN (`none`); the arithmetic operations propagate NaN exactly
as IEEE-754 does (`1 - NaN = NaN`, `NaN * 0 = NaN`, sums of NaN are NaN),
and comparisons against NaN are false, as in C.  `fpDiv` returns NaN on a
zero divisor: inside `interpolate` the only divisions are the corner
weights `(h_real - floor h_real) / (ceil h_real - floor h_real)` (and the
same for `v`), whose denominator vanishes exactly when the coordinate is an
integer — and then the numerator is zero too, so the zero-divisor case is
always IEEE `0/0 = NaN`, never `±Inf`.  At the evaluated input every value
is exactly representable in binary32 and every operation is exact, so the
rational model tracks the float computation bit-for-bit. -/
def fpAdd : Option ℚ → Option ℚ → Option ℚ
  | some a, some b => some (a + b)
  | _, _ => none

def fpSub : Option ℚ → Option ℚ → Option ℚ
  | some a, some b => some (a - b)
  | _, _ => none

def fpMul : Option ℚ → Option ℚ → Option ℚ
  | some a, some b => some (a * b)
  | _, _ => none

def fpDiv : Option ℚ → Option ℚ → Option ℚ
  | some a, some b => if b = 0 then none else some (a / b)
  | _, _ => none

/-- `proj_real_coordinate` over exact rationals (its divisor is the pixel
pitch, nonzero for any real detector and equal to 1 at the evaluated
input). -/
def proj_real_coordinateQ (coord : ℚ) (dim : Nat) (size offset : ℚ) : ℚ :=
  (coord - size / 2 - (-((dim : ℚ) * (size / 2)) - offset)) / size

/-- The `interpolate` device function with IEEE NaN propagation: corner
weights are computed by floating-point division *before* the bounds checks,
corners failing the bounds contribute the literal `0.f`, and the final sum
multiplies the (possibly NaN) weights with the corner values. -/
def interpolate_fp (h v : ℚ) (proj : ℤ → ℤ → ℚ) (proj_width proj_height : Nat)
    (pixel_size_x pixel_size_y offset_x offset_y : ℚ) : Option ℚ :=
  let h_real := proj_real_coordinateQ h proj_width pixel_size_x offset_x
  let v_real := proj_real_coordinateQ v proj_height pixel_size_y offset_y
  let h_j0 : ℚ := (⌊h_real⌋ : ℚ)
  let h_j1 : ℚ := (⌈h_real⌉ : ℚ)
  let v_i0 : ℚ := (⌊v_real⌋ : ℚ)
  let v_i1 : ℚ := (⌈v_real⌉ : ℚ)
  let w_h0 := fpDiv (some (h_real - h_j0)) (some (h_j1 - h_j0))
  let w_v0 := fpDiv (some (v_real - v_i0)) (some (v_i1 - v_i0))
  let w_h1 := fpSub (some 1) w_h0
  let w_v1 := fpSub (some 1) w_v0
  let h_j0_valid := 0 ≤ h_j0 ∧ h_j0 < (proj_width : ℚ)
  let h_j1_valid := 0 ≤ h_j1 ∧ h_j1 < (proj_width : ℚ)
  let v_i0_valid := 0 ≤ v_i0 ∧ v_i0 < (proj_height : ℚ)
  let v_i1_valid := 0 ≤ v_i1 ∧ v_i1 < (proj_height : ℚ)
  let tl : ℚ := if h_j0_valid ∧ v_i0_valid then proj ⌊v_real⌋ ⌊h_real⌋ else 0
  let bl : ℚ := if h_j0_valid ∧ v_i1_valid then proj ⌈v_real⌉ ⌊h_real⌋ else 0
  let tr : ℚ := if h_j1_valid ∧ v_i0_valid then proj ⌊v_real⌋ ⌈h_real⌉ else 0
  let br : ℚ := if h_j1_valid ∧ v_i1_valid then proj ⌈v_real⌉ ⌈h_real⌉ else 0
  fpAdd (fpAdd (fpAdd (fpMul (fpMul w_h1 w_v1) (some tl))
    (fpMul (fpMul w_h1 w_v0) (some bl)))
    (fpMul (fpMul w_h0 w_v1) (some tr)))
    (fpMul (fpMul w_h0 w_v0) (some br))

/-- C4: at the detector sample `h = v = -13/2` on a 4×4 projection with unit
pixel pitch and no offsets, the detector coordinates are `h_real = v_real = -5`:
the whole bilinear footprint (`floor = ceil = -5` on both axes) lies outside
`[0,4)×[0,4)`, yet `interpolate` does not return `0.0f` — the corner weights
are `0/0 = NaN` and `NaN * 0.f = NaN`, so it returns NaN. -/
theorem interpolate_fp_nan_at_integral_out_of_bounds :
    (⌊proj_real_coordinateQ (-13/2 : ℚ) 4 1 0⌋ = -5 ∧
     ⌈proj_real_coordinateQ (-13/2 : ℚ) 4 1 0⌉ = -5) ∧
    interpolate_fp (-13/2) (-13/2) (fun _ _ => 0) 4 4 1 1 0 0 = none ∧
    interpolate_fp (-13/2) (-13/2) (fun _ _ => 0) 4 4 1 1 0 0 ≠ some 0 := by
  have h1 : proj_real_coordinateQ (-13/2 : ℚ) 4 1 0 = -5 := by
    unfold proj_real_coordinateQ
    norm_num
  have hf : ⌊(-5 : ℚ)⌋ = -5 := by norm_num
  have hc : ⌈(-5 : ℚ)⌉ = -5 := by
    rw [show (-5 : ℚ) = ((-5 : ℤ) : ℚ) by norm_num]
    exact Int.ceil_intCast _
  have h2 : interpolate_fp (-13/2) (-13/2) (fun _ _ => 0) 4 4 1 1 0 0 = none := by
    simp only [interpolate_fp, h1, hf, hc]
    norm_num [fpDiv, fpSub, fpMul, fpAdd]
  refine ⟨⟨by rw [h1, hf], by rw [h1, hc]⟩, h2, by rw [h2]; exact fun h => Option.noConfusion h⟩
